import Mathlib

/-!
Verification of the data-extraction frontend workflow.

A shallow embedding of the benefit-extraction workflow of this repository
(React frontend: `RawDataReviewApproval.jsx`, `DataStoreVectorization.jsx`,
the V4 `ExtractionWizard`, and the pipeline-results viewer), together with
proofs about the approval gate, the category→pipeline dispatcher, keyword
handling, and benefit deletion.

JavaScript idioms are modelled explicitly:
* missing / `undefined` fields become `Option`;
* JS truthiness of a possibly-missing string (`!s.fetch_error`) is
  `jsTruthyStr`; of a number, comparison with 0 (`jsOrNat`);
* a JS `Set` built by repeated `add` is an insertion-ordered duplicate-free
  list built by `jsSetAdd`;
* `String.prototype.includes` is substring containment on character lists.
-/

namespace DataExtraction

/-- JS truthiness of a possibly-absent string field: `undefined`/`null` and
the empty string are falsy, every other string is truthy. -/
def jsTruthyStr : Option String → Bool
  | none => false
  | some s => s ≠ ""

/-- JS `a || b` on non-negative numbers where an absent operand was already
collapsed to `0`: `0` is falsy, so the chain takes `a` unless it is `0`. -/
def jsOrNat (a b : Nat) : Nat :=
  if a = 0 then b else a

/-- JS `cond ? str.length : 0` applied to a possibly-absent string: the length
of the string when it is truthy (present and non-empty), `0` otherwise. -/
def jsStrLengthOr0 : Option String → Nat
  | none => 0
  | some s => if s = "" then 0 else s.length

/-- Adding an element to a JS `Set`, modelled as an insertion-ordered list:
`add` is a no-op when the element is already present, otherwise it appends. -/
def jsSetAdd (s : List String) (x : String) : List String :=
  if x ∈ s then s else s ++ [x]

/-- Does `hay` start with `needle`?  (Executable helper for `jsIncludes`.) -/
def charsStartWith : List Char → List Char → Bool
  | [], _ => true
  | _ :: _, [] => false
  | a :: as, b :: bs => a == b && charsStartWith as bs

/-- Does `needle` occur contiguously inside `hay`?  (Executable helper for
`jsIncludes`; proved equivalent to `· <:+: ·` below.) -/
def charsContain (needle : List Char) : List Char → Bool
  | [] => needle.isEmpty
  | b :: bs => charsStartWith needle (b :: bs) || charsContain needle bs

/-- JS `str.toLowerCase()`, as the character list of the lowercased string. -/
def jsToLower (s : String) : List Char :=
  s.data.map Char.toLower

/-- JS `hay.includes(needle)`: `needle` occurs as a contiguous substring of
`hay`, computed over the underlying character lists. -/
def jsIncludes (hay needle : List Char) : Bool :=
  charsContain needle hay

lemma charsStartWith_iff (n : List Char) :
    ∀ h : List Char, charsStartWith n h = true ↔ ∃ t, n ++ t = h := by
  induction n with
  | nil =>
    intro h
    simp [charsStartWith]
  | cons a as ih =>
    intro h
    cases h with
    | nil =>
      simp [charsStartWith]
    | cons b bs =>
      simp only [charsStartWith, Bool.and_eq_true, beq_iff_eq, ih bs]
      constructor
      · rintro ⟨rfl, t, rfl⟩
        exact ⟨t, rfl⟩
      · rintro ⟨t, ht⟩
        simp only [List.cons_append, List.cons.injEq] at ht
        exact ⟨ht.1, t, ht.2⟩

lemma charsContain_iff (n : List Char) :
    ∀ h : List Char, charsContain n h = true ↔ n <:+: h := by
  intro h
  induction h with
  | nil =>
    simp only [charsContain, List.isEmpty_iff]
    constructor
    · rintro rfl
      exact ⟨[], [], rfl⟩
    · rintro ⟨s, t, hst⟩
      have h2 := List.append_eq_nil.1 hst
      exact (List.append_eq_nil.1 h2.1).2
  | cons b bs ih =>
    simp only [charsContain, Bool.or_eq_true, ih, charsStartWith_iff]
    constructor
    · rintro (⟨t, ht⟩ | hin)
      · exact ⟨[], t, by simpa using ht⟩
      · exact hin.trans ⟨[b], [], by simp⟩
    · intro hin
      rcases hin with ⟨s, t, hst⟩
      cases s with
      | nil =>
        exact Or.inl ⟨t, by simpa using hst⟩
      | cons x xs =>
        right
        simp only [List.cons_append, List.cons.injEq] at hst
        exact ⟨xs, t, hst.2⟩

/-! ## `RawDataReviewApproval.jsx` — sources and the approval gate -/

/-- One fetched source as handled by `RawDataReviewApproval.jsx`.  Fields that
the component reads with optional chaining or truthiness tests are `Option`s. -/
structure Source where
  source_id : String
  url : String
  source_type : String
  title : Option String
  cleaned_content : Option String
  raw_content : Option String
  cleaned_content_length : Option Nat
  fetch_error : Option String
  depth : Nat
  deriving Repr, DecidableEq

/-- The per-source condition of the auto-selection `useEffect` and of
`handleSelectValid`: `!s.fetch_error && s.cleaned_content_length > 100`.
An absent `cleaned_content_length` compares as false in JS. -/
def validForAutoSelect (s : Source) : Bool :=
  !(jsTruthyStr s.fetch_error) &&
    (match s.cleaned_content_length with
     | some n => decide (100 < n)
     | none => false)

/-- The initial auto-selection computed by the `useEffect` in
`RawDataReviewApproval`: indices of sources without fetch error whose
cleaned content length exceeds 100
(`.map((s, i) => (!s.fetch_error && s.cleaned_content_length > 100 ? i : null)).filter(i => i !== null)`). -/
def initialAutoSelect (sources : List Source) : List Nat :=
  (sources.enum.map fun p => if validForAutoSelect p.2 then some p.1 else none).filterMap id

/-- Embeds `handleSelectValid` (the "Valid Only" button): it recomputes the same index
set with the same predicate. -/
def handleSelectValid (sources : List Source) : List Nat :=
  (sources.enum.map fun p => if validForAutoSelect p.2 then some p.1 else none).filterMap id

lemma mem_initialAutoSelect_iff {sources : List Source} {i : Nat} :
    i ∈ initialAutoSelect sources ↔
      ∃ s, sources[i]? = some s ∧ validForAutoSelect s = true := by
  simp only [initialAutoSelect, List.filterMap_map, Function.comp_def, id]
  rw [List.mem_filterMap]
  constructor
  · rintro ⟨⟨j, s⟩, hmem, hcond⟩
    by_cases hv : validForAutoSelect s
    · simp only [hv, if_pos, Option.some.injEq] at hcond
      subst hcond
      exact ⟨s, List.mk_mem_enum_iff_getElem?.1 hmem, hv⟩
    · simp [hv] at hcond
  · rintro ⟨s, hget, hv⟩
    exact ⟨(i, s), List.mk_mem_enum_iff_getElem?.2 hget, by simp [hv]⟩

lemma validForAutoSelect_iff {s : Source} :
    validForAutoSelect s = true ↔
      jsTruthyStr s.fetch_error = false ∧
        ∃ n, s.cleaned_content_length = some n ∧ 100 < n := by
  unfold validForAutoSelect
  cases h : s.cleaned_content_length with
  | none => simp [h]
  | some n => simp [h, Bool.and_eq_true, Bool.not_eq_true']

/-- **C1.** Approval Gate default auto-selection: an index is auto-selected by
the initial `useEffect` exactly when its source has no (truthy) `fetch_error`
and its `cleaned_content_length` is present and exceeds 100 characters; a
source with a fetch error or length ≤ 100 (or an absent length) is not
auto-selected.  The "Valid Only" action (`handleSelectValid`) computes the
same index set. -/
theorem approval_gate_auto_select (sources : List Source) (i : Nat) :
    (i ∈ initialAutoSelect sources ↔
      ∃ s, sources[i]? = some s ∧
        jsTruthyStr s.fetch_error = false ∧
        ∃ n, s.cleaned_content_length = some n ∧ 100 < n) ∧
    handleSelectValid sources = initialAutoSelect sources := by
  refine ⟨?_, rfl⟩
  rw [mem_initialAutoSelect_iff]
  constructor
  · rintro ⟨s, hget, hv⟩
    exact ⟨s, hget, validForAutoSelect_iff.1 hv⟩
  · rintro ⟨s, hget, herr, hlen⟩
    exact ⟨s, hget, validForAutoSelect_iff.2 ⟨herr, hlen⟩⟩

/-! ### `handleApprove` — the approval checksum -/

/-- The normalisation applied to each selected source inside `handleApprove`:
`cleaned_content_length: source.cleaned_content_length || (source.cleaned_content ? source.cleaned_content.length : 0)`. -/
def normalizedCleanedLength (s : Source) : Nat :=
  match s.cleaned_content_length with
  | some n => jsOrNat n (jsStrLengthOr0 s.cleaned_content)
  | none => jsStrLengthOr0 s.cleaned_content

/-- A source as it appears in the record returned by `handleApprove`: the
original source with its `cleaned_content_length` normalised, plus the
`approved: true` mark. -/
structure ApprovedSource where
  source : Source
  approved : Bool
  deriving Repr, DecidableEq

/-- Embeds `sources.filter((_, i) => selectedSources.has(i)).map(source => ({...source, approved: true, cleaned_content_length: ...}))`. -/
def approveSelected (sources : List Source) (selected : List Nat) : List ApprovedSource :=
  ((sources.enum.filter fun p => p.1 ∈ selected).map fun p =>
    { source := { p.2 with cleaned_content_length := some (normalizedCleanedLength p.2) }
      approved := true })

/-- One term of the `reduce` in `handleApprove`:
`s.cleaned_content_length || (s.cleaned_content ? s.cleaned_content.length : 0) || (s.raw_content ? s.raw_content.length : 0) || 0`. -/
def reduceContribution (s : ApprovedSource) : Nat :=
  jsOrNat (match s.source.cleaned_content_length with | some n => n | none => 0)
    (jsOrNat (jsStrLengthOr0 s.source.cleaned_content)
      (jsStrLengthOr0 s.source.raw_content))

/-- Embeds `approvedSources.reduce((sum, s) => sum + ..., 0)`. -/
def totalContentLengthOf (approved : List ApprovedSource) : Nat :=
  approved.foldl (fun sum s => sum + reduceContribution s) 0

/-- The part of the `approvalData` record built by `handleApprove` that the
claim is about. -/
structure ApprovalData where
  sources : List ApprovedSource
  total_sources : Nat
  total_content_length : Nat
  deriving Repr

/-- Embeds `handleApprove`: it builds the approved-source list, the count, and the
total-content-length checksum. -/
def handleApprove (sources : List Source) (selected : List Nat) : ApprovalData :=
  let approvedSources := approveSelected sources selected
  { sources := approvedSources
    total_sources := approvedSources.length
    total_content_length := totalContentLengthOf approvedSources }

/-- The per-source length the checksum sums, read off the code: the cleaned
content length (the stored field, or the cleaned content's length when the
field is absent/zero), falling back to the raw content length when no cleaned
length is available. -/
def approvedSourceLength (s : Source) : Nat :=
  if normalizedCleanedLength s = 0
  then jsStrLengthOr0 s.raw_content
  else normalizedCleanedLength s

lemma reduceContribution_approve (s : Source) :
    reduceContribution
      { source := { s with cleaned_content_length := some (normalizedCleanedLength s) }
        approved := true } = approvedSourceLength s := by
  unfold reduceContribution approvedSourceLength normalizedCleanedLength jsOrNat
  cases h : s.cleaned_content_length with
  | none =>
    by_cases hc : jsStrLengthOr0 s.cleaned_content = 0 <;> simp [hc]
  | some n =>
    by_cases hn : n = 0
    · by_cases hc : jsStrLengthOr0 s.cleaned_content = 0 <;> simp [hn, hc]
    · simp [hn]

lemma foldl_add_eq_sum_map (l : List ApprovedSource) (init : Nat) :
    l.foldl (fun sum s => sum + reduceContribution s) init
      = init + (l.map reduceContribution).sum := by
  induction l generalizing init with
  | nil => simp
  | cons a t ih => simp [List.foldl_cons, ih, Nat.add_assoc]

/-- **C3.** Approval checksum: the record returned by `handleApprove` has
`total_sources` equal to the number of selected sources, `total_content_length`
equal to the sum over the selected sources of the cleaned content length
(falling back to the raw content length when no cleaned length is available),
and every source in the record is marked `approved`. -/
theorem approval_checksum (sources : List Source) (selected : List Nat) :
    (handleApprove sources selected).total_sources
        = ((List.range sources.length).filter fun i => i ∈ selected).length ∧
    (handleApprove sources selected).total_content_length
        = (((sources.enum.filter fun p => p.1 ∈ selected).map fun p =>
              approvedSourceLength p.2).sum) ∧
    ∀ a ∈ (handleApprove sources selected).sources, a.approved = true := by
  refine ⟨?_, ?_, ?_⟩
  · show (approveSelected sources selected).length = _
    unfold approveSelected
    rw [List.length_map]
    have hrange : List.range sources.length = sources.enum.map Prod.fst := by
      rw [List.enum_map_fst]
    rw [hrange, List.filter_map, List.length_map]
    simp [Function.comp_def]
  · show totalContentLengthOf (approveSelected sources selected) = _
    unfold totalContentLengthOf approveSelected
    rw [foldl_add_eq_sum_map, Nat.zero_add, List.map_map]
    congr 1
    apply List.map_congr_left
    intro p _
    exact reduceContribution_approve p.2
  · intro a ha
    have : a ∈ approveSelected sources selected := ha
    unfold approveSelected at this
    rw [List.mem_map] at this
    obtain ⟨p, _, rfl⟩ := this
    rfl

/-! ### `SourceCard` — keyword matching and the High Relevance badge -/

/-- Embeds `keywords.filter(kw => source.cleaned_content?.toLowerCase().includes(kw.toLowerCase()))`:
the keywords whose lowercased form occurs as a substring of the lowercased
cleaned content.  Absent content short-circuits to no match. -/
def keywordMatches (keywords : List String) (cleaned_content : Option String) : List String :=
  keywords.filter fun kw =>
    match cleaned_content with
    | some c => jsIncludes (jsToLower c) (jsToLower kw)
    | none => false

/-- The `⭐ High Relevance` badge condition in `SourceCard`:
`keywordMatches.length > 5`. -/
def highRelevanceBadge (keywords : List String) (cleaned_content : Option String) : Bool :=
  (keywordMatches keywords cleaned_content).length > 5

/-- **C6.** Keyword matching is case-insensitive substring containment and
deterministic: a keyword is matched exactly when its lowercased form is a
contiguous substring of the lowercased content (so a keyword embedded inside
a longer word counts, as the concrete conjunct shows), and an empty keyword
set yields an empty matched set.  Determinism is inherent: `keywordMatches`
is a pure function of the text and the keyword set. -/
theorem keyword_matching_substring (keywords : List String) (content : String) (kw : String) :
    (kw ∈ keywordMatches keywords (some content) ↔
      kw ∈ keywords ∧ jsToLower kw <:+: jsToLower content) ∧
    keywordMatches [] (some content) = [] ∧
    "cashback" ∈ keywordMatches ["cashback"] (some ("Embedded SuperCASHBACKS deal")) := by
  refine ⟨?_, rfl, by decide⟩
  unfold keywordMatches
  rw [List.mem_filter]
  simp only [jsIncludes, charsContain_iff]

/-- **C5 (counterexample).** A source whose cleaned content matches exactly 5
of the configured keywords — i.e. at least the default high cutoff of 5 — is
*not* flagged high relevance: the badge condition is `> 5`, not `≥ 5`. -/
theorem high_relevance_at_five_not_flagged :
    (keywordMatches ["alpha", "beta", "gamma", "delta", "epsilon"]
        (some ("alpha beta gamma delta epsilon"))).length = 5 ∧
    highRelevanceBadge ["alpha", "beta", "gamma", "delta", "epsilon"]
        (some ("alpha beta gamma delta epsilon")) = false := by
  constructor
  · decide
  · decide

/-- **C5 (amended).** High-relevance flagging threshold: a reviewed source is
flagged high relevance exactly when its cleaned content matches strictly more
than 5 of the configured keywords (i.e. at least 6); a source matching 5 or
fewer keywords — in particular between 1 and 4 — is not flagged high. -/
theorem high_relevance_flagging (keywords : List String) (cleaned_content : Option String) :
    (6 ≤ (keywordMatches keywords cleaned_content).length →
      highRelevanceBadge keywords cleaned_content = true) ∧
    ((keywordMatches keywords cleaned_content).length ≤ 5 →
      highRelevanceBadge keywords cleaned_content = false) := by
  unfold highRelevanceBadge
  constructor
  · intro h
    simpa using h
  · intro h
    simpa using Nat.not_lt.2 h

/-- Witness for `high_relevance_flagging` on a concrete source matching 6
keywords (flagged) and one matching 2 keywords (not flagged). -/
theorem high_relevance_flagging_witness :
    highRelevanceBadge ["a1", "b2", "c3", "d4", "e5", "f6"]
        (some ("a1 b2 c3 d4 e5 f6")) = true ∧
    highRelevanceBadge ["a1", "b2", "c3", "d4", "e5", "f6"]
        (some ("a1 b2")) = false :=
  ⟨(high_relevance_flagging ["a1", "b2", "c3", "d4", "e5", "f6"]
      (some ("a1 b2 c3 d4 e5 f6"))).1 (by decide),
   (high_relevance_flagging ["a1", "b2", "c3", "d4", "e5", "f6"]
      (some ("a1 b2"))).2 (by decide)⟩

/-! ## `DataStoreVectorization.jsx` (`PipelineExecution`) — the dispatcher -/

/-- Embeds `CATEGORY_PIPELINE_MAP`, including the `|| []` fallback applied at every
lookup site: an unknown category maps to no pipeline. -/
def categoryPipelineMap (c : String) : List String :=
  if c = "cashback" then ["cashback"]
  else if c = "lounge" then ["lounge_access"]
  else if c = "golf" then ["golf"]
  else if c = "dining" then ["dining"]
  else if c = "travel" then ["travel_benefits"]
  else if c = "insurance" then ["insurance"]
  else if c = "rewards" then ["rewards_points"]
  else if c = "movie" then ["movie"]
  else if c = "fee" then ["fee_waiver"]
  else if c = "lifestyle" then ["lifestyle"]
  else if c = "eligibility" then []
  else if c = "general" then []
  else []

/-- The dispatch computation shared by `toggleCategory` and
`selectAllCategories`:
`next.forEach(c => (CATEGORY_PIPELINE_MAP[c] || []).forEach(p => mapped.add(p)))`
with `mapped` a fresh JS `Set`. -/
def dispatchPipelines (selected : List String) : List String :=
  selected.foldl (fun acc c => (categoryPipelineMap c).foldl jsSetAdd acc) []

lemma mem_foldl_jsSetAdd (l : List String) :
    ∀ (acc : List String) (x : String),
      x ∈ l.foldl jsSetAdd acc ↔ x ∈ acc ∨ x ∈ l := by
  induction l with
  | nil => simp
  | cons a t ih =>
    intro acc x
    simp only [List.foldl_cons, ih, jsSetAdd]
    by_cases ha : a ∈ acc
    · simp only [ha, if_pos]
      constructor
      · rintro (hx | hx)
        · exact Or.inl hx
        · exact Or.inr (List.mem_cons_of_mem a hx)
      · rintro (hx | hx)
        · exact Or.inl hx
        · rcases List.mem_cons.1 hx with rfl | hx
          · exact Or.inl ha
          · exact Or.inr hx
    · simp only [ha, if_neg, not_false_iff, List.mem_append, List.mem_singleton,
        List.mem_cons]
      tauto


lemma nodup_foldl_jsSetAdd (l : List String) :
    ∀ acc : List String, acc.Nodup → (l.foldl jsSetAdd acc).Nodup := by
  induction l with
  | nil => intro acc h; simpa using h
  | cons a t ih =>
    intro acc hacc
    simp only [List.foldl_cons]
    apply ih
    unfold jsSetAdd
    by_cases ha : a ∈ acc
    · simpa [ha] using hacc
    · simp only [ha, if_neg, not_false_iff]
      exact List.Nodup.append hacc (List.nodup_singleton a)
        (fun x hx hxa => ha ((List.mem_singleton.1 hxa) ▸ hx))

lemma mem_dispatchPipelines_iff (selected : List String) (p : String) :
    p ∈ dispatchPipelines selected ↔ ∃ c ∈ selected, p ∈ categoryPipelineMap c := by
  unfold dispatchPipelines
  suffices h : ∀ acc : List String,
      p ∈ selected.foldl (fun acc c => (categoryPipelineMap c).foldl jsSetAdd acc) acc ↔
        p ∈ acc ∨ ∃ c ∈ selected, p ∈ categoryPipelineMap c by
    simpa using h []
  induction selected with
  | nil => simp
  | cons a t ih =>
    intro acc
    simp only [List.foldl_cons, ih, mem_foldl_jsSetAdd]
    constructor
    · rintro ((hp | hp) | ⟨c, hc, hp⟩)
      · exact Or.inl hp
      · exact Or.inr ⟨a, List.mem_cons_self a t, hp⟩
      · exact Or.inr ⟨c, List.mem_cons_of_mem a hc, hp⟩
    · rintro (hp | ⟨c, hc, hp⟩)
      · exact Or.inl (Or.inl hp)
      · rcases List.mem_cons.1 hc with rfl | hc
        · exact Or.inl (Or.inr hp)
        · exact Or.inr ⟨c, hc, hp⟩

/-- **C2.** Dispatcher union property: the dispatched pipeline set is exactly
the union over the selected categories of `categoryPipelineMap`; the result
never contains a pipeline twice (so two categories mapping to the same
pipeline contribute it once — each pipeline occurs at most once); and
selecting only `eligibility` or `general`, which map to no pipeline, yields
an empty pipeline set. -/
theorem dispatcher_union (selected : List String) (p : String) :
    (p ∈ dispatchPipelines selected ↔ ∃ c ∈ selected, p ∈ categoryPipelineMap c) ∧
    (dispatchPipelines selected).Nodup ∧
    (dispatchPipelines selected).count p ≤ 1 ∧
    dispatchPipelines ["eligibility"] = [] ∧
    dispatchPipelines ["general"] = [] ∧
    dispatchPipelines ["eligibility", "general"] = [] := by
  have hnodup : (dispatchPipelines selected).Nodup := by
    unfold dispatchPipelines
    have h : ∀ (l : List String) (acc : List String), acc.Nodup →
        (l.foldl (fun acc c => (categoryPipelineMap c).foldl jsSetAdd acc) acc).Nodup := by
      intro l
      induction l with
      | nil => intro acc h; simpa using h
      | cons a t ih =>
        intro acc hacc
        simp only [List.foldl_cons]
        exact ih _ (nodup_foldl_jsSetAdd _ _ hacc)
    exact h selected [] List.nodup_nil
  refine ⟨mem_dispatchPipelines_iff selected p, hnodup, ?_, by decide, by decide, by decide⟩
  exact List.nodup_iff_count_le_one.1 hnodup p

/-! ## `ExtractionWizard` (V4) — keyword management and reset -/

/-- Embeds `DEFAULT_KEYWORDS`, as declared identically in the V4 `ExtractionWizard`
and in `ExtractionFormV2` inside `DataStoreVectorization.jsx`. -/
def DEFAULT_KEYWORDS : List String :=
  ["benefit", "reward", "cashback", "discount", "lounge", "airport",
   "travel", "insurance", "annual fee", "interest rate", "eligibility",
   "minimum salary", "points", "miles", "complimentary", "free",
   "cinema", "golf", "concierge", "valet", "dining", "shopping",
   "partner", "merchant", "offer", "promotion", "feature",
   "aed", "usd", "%", "per month", "per year", "waived",
   "mastercard", "visa", "diners", "platinum", "signature", "world",
   "credit limit", "supplementary", "apply", "requirement"]

/-- A character JS `trim()` strips: space and the common line/tab characters. -/
def isJsSpace (c : Char) : Bool :=
  c == ' ' || c == '\t' || c == '\n' || c == '\r'

/-- JS `str.trim()`: drop leading and trailing whitespace. -/
def jsTrim (s : String) : List Char :=
  ((s.data.dropWhile isJsSpace).reverse.dropWhile isJsSpace).reverse

/-- JS `str.trim().toLowerCase()` as performed by `addKeyword`. -/
def trimLower (s : String) : String :=
  String.mk ((jsTrim s).map Char.toLower)

/-- Embeds `addKeyword`: it trims and lowercases the pending input and appends it when
it is non-empty and not already present
(`const kw = newKeyword.trim().toLowerCase(); if (kw && !keywords.includes(kw)) setKeywords([...keywords, kw])`). -/
def addKeyword (keywords : List String) (newKeyword : String) : List String :=
  let kw := trimLower newKeyword
  if kw ≠ "" ∧ kw ∉ keywords then keywords ++ [kw] else keywords

/-- Embeds `removeKeyword`: `keywords.filter(k => k !== kw)`. -/
def removeKeyword (keywords : List String) (kw : String) : List String :=
  keywords.filter fun k => k ≠ kw

/-- One user action on the wizard keyword list. -/
inductive KeywordOp where
  | add (raw : String)
  | remove (kw : String)
  | resetDefaults
  deriving Repr

/-- Apply one keyword action; `resetDefaults` is `resetKeywords`
(`setKeywords([...DEFAULT_KEYWORDS])`). -/
def applyKeywordOp (keywords : List String) : KeywordOp → List String
  | .add raw => addKeyword keywords raw
  | .remove kw => removeKeyword keywords kw
  | .resetDefaults => DEFAULT_KEYWORDS

/-- The keyword list after a sequence of user actions, starting from the
initial state `useState([...DEFAULT_KEYWORDS])`. -/
def runKeywordOps (ops : List KeywordOp) : List String :=
  ops.foldl applyKeywordOp DEFAULT_KEYWORDS

lemma DEFAULT_KEYWORDS_nodup : DEFAULT_KEYWORDS.Nodup := by decide

lemma addKeyword_nodup {keywords : List String} (h : keywords.Nodup)
    (raw : String) : (addKeyword keywords raw).Nodup := by
  unfold addKeyword
  by_cases hc : trimLower raw ≠ "" ∧ trimLower raw ∉ keywords
  · rw [if_pos hc]
    exact List.Nodup.append h (List.nodup_singleton _)
      (fun x hx hxa => hc.2 (by rwa [List.mem_singleton.1 hxa] at hx))
  · rw [if_neg hc]
    exact h

lemma applyKeywordOp_nodup {keywords : List String} (h : keywords.Nodup) :
    ∀ op : KeywordOp, (applyKeywordOp keywords op).Nodup
  | .add raw => addKeyword_nodup h raw
  | .remove _ => List.Nodup.filter _ h
  | .resetDefaults => DEFAULT_KEYWORDS_nodup

/-- **C9.** Keyword list invariant: after any sequence of add, remove, and
reset operations the wizard keyword list has no duplicate entries; adding
first trims and lowercases the input; adding an input that trims/lowercases
to the empty string, or to a keyword already present, leaves the list
unchanged; otherwise the trimmed, lowercased keyword is appended. -/
theorem keyword_list_invariant (ops : List KeywordOp) (keywords : List String)
    (raw : String) :
    (runKeywordOps ops).Nodup ∧
    (trimLower raw = "" → addKeyword keywords raw = keywords) ∧
    (trimLower raw ∈ keywords → addKeyword keywords raw = keywords) ∧
    (trimLower raw ≠ "" → trimLower raw ∉ keywords →
      addKeyword keywords raw = keywords ++ [trimLower raw]) := by
  refine ⟨?_, ?_, ?_, ?_⟩
  · unfold runKeywordOps
    have h : ∀ (l : List KeywordOp) (ks : List String), ks.Nodup →
        (l.foldl applyKeywordOp ks).Nodup := by
      intro l
      induction l with
      | nil => intro ks h; simpa using h
      | cons op t ih =>
        intro ks hks
        simp only [List.foldl_cons]
        exact ih _ (applyKeywordOp_nodup hks op)
    exact h ops DEFAULT_KEYWORDS DEFAULT_KEYWORDS_nodup
  · intro he
    simp [addKeyword, he]
  · intro hm
    simp [addKeyword, hm]
  · intro he hm
    simp [addKeyword, he, hm]

/-- Witness for `keyword_list_invariant`: a concrete operation sequence stays
duplicate-free; adding whitespace, an already-present keyword (up to case and
surrounding blanks), and a genuinely new keyword behave as stated. -/
theorem keyword_list_invariant_witness :
    (runKeywordOps [KeywordOp.add ("  New Keyword "), KeywordOp.remove ("benefit"),
        KeywordOp.resetDefaults, KeywordOp.add ("Golf")]).Nodup ∧
    addKeyword ["benefit"] "   " = ["benefit"] ∧
    addKeyword ["benefit"] (" BENEFIT ") = ["benefit"] ∧
    addKeyword ["benefit"] (" Reward ") = ["benefit", "reward"] := by
  refine ⟨(keyword_list_invariant _ ["benefit"] "x").1, ?_, ?_, ?_⟩
  · exact (keyword_list_invariant [] ["benefit"] "   ").2.1 (by decide)
  · exact (keyword_list_invariant [] ["benefit"] " BENEFIT ").2.2.1 (by decide)
  · have h := (keyword_list_invariant [] ["benefit"] " Reward ").2.2.2
      (by decide) (by decide)
    rw [h]
    decide

/-! ### `ExtractionWizard` reset -/

/-- The client-side state of the V4 `ExtractionWizard` that `reset` can see:
workflow state plus the advanced-options configuration.  List-valued fields
carry the identifiers the component stores in them. -/
structure WizardState where
  session : Option String
  step : Nat
  cards : List String
  selectedCardIds : List String
  urls : List String
  selectedUrls : List String
  sources : List String
  saveResult : Option String
  fetchStats : Option String
  error : String
  keywords : List String
  singleCardUrl : String
  textContent : String
  selectedFile : Option String
  processPdfs : Bool
  bypassCache : Bool
  maxDepth : Nat
  followLinks : Bool
  usePlaywright : Bool
  deriving Repr, DecidableEq

/-- Embeds `reset` of the V4 `ExtractionWizard`: it clears session, step, discovered and
fetched state, inputs and the error banner, and sets the keyword list back to
`[...DEFAULT_KEYWORDS]`.  It does not touch the advanced options
(`processPdfs`, `bypassCache`, `maxDepth`, `followLinks`, `usePlaywright`). -/
def resetWizard (st : WizardState) : WizardState :=
  { st with
    session := none
    step := 1
    cards := []
    selectedCardIds := []
    urls := []
    selectedUrls := []
    sources := []
    saveResult := none
    fetchStats := none
    error := ""
    keywords := DEFAULT_KEYWORDS
    singleCardUrl := ""
    textContent := ""
    selectedFile := none }

/-- A concrete wizard state mid-session with a customised keyword list. -/
def sampleWizardState : WizardState :=
  { session := some ("sess-1")
    step := 7
    cards := ["card-1"]
    selectedCardIds := ["card-1"]
    urls := ["https://bank.example/card"]
    selectedUrls := ["https://bank.example/card"]
    sources := ["src-1"]
    saveResult := some ("saved")
    fetchStats := some ("stats")
    error := ""
    keywords := ["benefit"]
    singleCardUrl := "https://bank.example/card"
    textContent := ""
    selectedFile := none
    processPdfs := true
    bypassCache := false
    maxDepth := 3
    followLinks := true
    usePlaywright := true }

/-- **C8 (counterexample).** The claim that reset retains the keyword set
unchanged fails: resetting a wizard whose keyword list was customised to
`["benefit"]` replaces it with the 43-entry default list. -/
theorem reset_keywords_not_retained :
    (resetWizard sampleWizardState).keywords ≠ sampleWizardState.keywords := by
  decide

/-- **C8 (amended).** Reset retains configuration except the keyword set:
resetting discards all discovered/fetched state (session, cards, URLs,
sources, fetch stats, save result, inputs) and returns to the initial step,
while max depth, the follow-links flag, the cache-bypass flag and the
process-documents flag are retained unchanged; the keyword set, however, is
restored to `DEFAULT_KEYWORDS` rather than retained. -/
theorem reset_retains_configuration (st : WizardState) :
    (resetWizard st).maxDepth = st.maxDepth ∧
    (resetWizard st).followLinks = st.followLinks ∧
    (resetWizard st).bypassCache = st.bypassCache ∧
    (resetWizard st).processPdfs = st.processPdfs ∧
    (resetWizard st).usePlaywright = st.usePlaywright ∧
    (resetWizard st).keywords = DEFAULT_KEYWORDS ∧
    (resetWizard st).step = 1 ∧
    (resetWizard st).session = none ∧
    (resetWizard st).cards = [] ∧
    (resetWizard st).selectedCardIds = [] ∧
    (resetWizard st).urls = [] ∧
    (resetWizard st).selectedUrls = [] ∧
    (resetWizard st).sources = [] ∧
    (resetWizard st).saveResult = none ∧
    (resetWizard st).fetchStats = none ∧
    (resetWizard st).singleCardUrl = "" ∧
    (resetWizard st).textContent = "" ∧
    (resetWizard st).selectedFile = none := by
  repeat constructor

/-! ### `createSession` — seed type decides the first stage -/

/-- Embeds `stepNames` from the V4 wizard: the seven stages, 1-indexed in `step`. -/
def wizardStepNames : List String :=
  ["Input", "Cards", "Discover", "URLs", "Keywords", "Fetch", "Save"]

/-- The seed given to `createSession`: single-card URL, pasted text, uploaded
PDF (with or without a chosen file), or a bank key for bank-wide discovery. -/
inductive SeedInput where
  | urlSeed (singleCardUrl : String)
  | textSeed (textContent : String)
  | pdfSeed (selectedFile : Option String)
  | bankSeed (bankKey : String)
  deriving Repr, DecidableEq

/-- The wizard step `createSession` lands on after a successful session
creation, or the validation error it raises.  Text and PDF seeds jump
straight to `setStep(4)`; URL and bank seeds run `discoverCards`, which ends
in `setStep(2)`. -/
def createSessionNextStep : SeedInput → Except String Nat
  | .urlSeed u => if u = "" then .error ("Please enter a card URL") else .ok 2
  | .textSeed t => if (jsTrim t).isEmpty then .error ("Please enter some text") else .ok 4
  | .pdfSeed none => .error ("Please select a PDF file")
  | .pdfSeed (some _) => .ok 4
  | .bankSeed k => if k = "" then .error ("Please select a bank") else .ok 2

/-- **C4.** Single-document seed skips the card stages: a session created in
single-card mode from a text or PDF seed enters step 4 — the URL-selection
stage (`wizardStepNames[3] = "URLs"`) — directly, never entering the
card-discovery or card-selection stages (steps 2 and 3); a URL or bank seed
instead lands on step 2 (`wizardStepNames[1] = "Cards"`) via `discoverCards`. -/
theorem single_document_seed_skips_cards :
    (∀ t : String, (jsTrim t).isEmpty = false →
      createSessionNextStep (.textSeed t) = .ok 4) ∧
    (∀ f : String, createSessionNextStep (.pdfSeed (some f)) = .ok 4) ∧
    (∀ u : String, u ≠ "" → createSessionNextStep (.urlSeed u) = .ok 2) ∧
    (∀ k : String, k ≠ "" → createSessionNextStep (.bankSeed k) = .ok 2) ∧
    wizardStepNames[3]? = some ("URLs") ∧
    wizardStepNames[1]? = some ("Cards") := by
  refine ⟨?_, ?_, ?_, ?_, rfl, rfl⟩
  · intro t ht
    simp [createSessionNextStep, ht]
  · intro f
    rfl
  · intro u hu
    simp [createSessionNextStep, hu]
  · intro k hk
    simp [createSessionNextStep, hk]

/-- Witness for `single_document_seed_skips_cards` at concrete seeds. -/
theorem single_document_seed_skips_cards_witness :
    createSessionNextStep (.textSeed ("Card benefits text")) = .ok 4 ∧
    createSessionNextStep (.pdfSeed (some ("card.pdf"))) = .ok 4 ∧
    createSessionNextStep (.urlSeed ("https://bank.example/card")) = .ok 2 ∧
    createSessionNextStep (.bankSeed ("emiratesnbd")) = .ok 2 :=
  ⟨single_document_seed_skips_cards.1 ("Card benefits text") (by decide),
   single_document_seed_skips_cards.2.1 ("card.pdf"),
   single_document_seed_skips_cards.2.2.1 ("https://bank.example/card") (by decide),
   single_document_seed_skips_cards.2.2.2.1 ("emiratesnbd") (by decide)⟩

/-! ## `ExtractionFormV2` — post-discovery auto-selection -/

/-- A link returned by URL discovery (`discovered_links` / `pdf_links` in the
discovery result), with its relevance tier. -/
structure DiscoveredLink where
  url : String
  relevance : String
  deriving Repr, DecidableEq

/-- The auto-selection in `handleDiscover`:
`[...result.discovered_links.filter(l => l.relevance === 'high').map(l => l.url),
  ...result.pdf_links.filter(l => l.relevance === 'high').map(l => l.url)]`. -/
def autoSelectHighRelevance (discovered_links pdf_links : List DiscoveredLink) :
    List String :=
  (discovered_links.filter fun l => l.relevance = "high").map (fun l => l.url) ++
    (pdf_links.filter fun l => l.relevance = "high").map (fun l => l.url)

/-- **C10.** Post-discovery auto-selection: immediately after URL discovery
succeeds, the selected-URL list contains a URL exactly when some discovered
web-page link or PDF link with that URL has relevance `high`; URLs whose
links are all of medium or low relevance start unselected. -/
theorem post_discovery_auto_selection
    (discovered_links pdf_links : List DiscoveredLink) (u : String) :
    u ∈ autoSelectHighRelevance discovered_links pdf_links ↔
      ∃ l ∈ discovered_links ++ pdf_links, l.relevance = "high" ∧ l.url = u := by
  unfold autoSelectHighRelevance
  simp only [List.mem_append, List.mem_map, List.mem_filter, decide_eq_true_eq]
  constructor
  · rintro (⟨l, ⟨hl, hrel⟩, rfl⟩ | ⟨l, ⟨hl, hrel⟩, rfl⟩)
    · exact ⟨l, Or.inl hl, hrel, rfl⟩
    · exact ⟨l, Or.inr hl, hrel, rfl⟩
  · rintro ⟨l, hl | hl, hrel, rfl⟩
    · exact Or.inl ⟨l, ⟨hl, hrel⟩, rfl⟩
    · exact Or.inr ⟨l, ⟨hl, hrel⟩, rfl⟩

/-! ## `PipelineResultsViewer` — benefit deletion is local -/

/-- One extracted benefit as displayed by the results viewer. -/
structure Benefit where
  benefit_id : String
  title : String
  description : String
  confidence_level : String
  extraction_method : String
  value : Option String
  deriving Repr, DecidableEq

/-- The viewer state the deletion claim is about: the immutable
`results.all_benefits` array and the `deletedBenefits` id set. -/
structure ResultsViewState where
  all_benefits : List Benefit
  deletedBenefits : List String
  deriving Repr, DecidableEq

/-- The local effect of a successful `handleDeleteBenefit`:
`setDeletedBenefits(prev => new Set(prev).add(benefitId))`. -/
def markBenefitDeleted (st : ResultsViewState) (benefitId : String) :
    ResultsViewState :=
  { st with deletedBenefits := jsSetAdd st.deletedBenefits benefitId }

/-- The visible benefit list:
`results.all_benefits.filter(benefit => !deletedBenefits.has(benefit.benefit_id))`. -/
def visibleBenefits (st : ResultsViewState) : List Benefit :=
  st.all_benefits.filter fun b => !(b.benefit_id ∈ st.deletedBenefits)

/-- The remaining-benefit badge:
`stats.totalBenefits - deletedBenefits.size`. -/
def benefitsBadge (st : ResultsViewState) : Nat :=
  st.all_benefits.length - st.deletedBenefits.length

lemma mem_jsSetAdd {s : List String} {x y : String} :
    y ∈ jsSetAdd s x ↔ y ∈ s ∨ y = x := by
  unfold jsSetAdd
  by_cases h : x ∈ s
  · rw [if_pos h]
    constructor
    · exact Or.inl
    · rintro (hy | rfl)
      · exact hy
      · exact h
  · rw [if_neg h]
    simp

lemma visibleBenefits_markDeleted (st : ResultsViewState) (benefitId : String) :
    visibleBenefits (markBenefitDeleted st benefitId)
      = (visibleBenefits st).filter fun b => b.benefit_id ≠ benefitId := by
  unfold visibleBenefits markBenefitDeleted
  rw [List.filter_filter]
  apply List.filter_congr
  intro b _
  by_cases h1 : b.benefit_id ∈ st.deletedBenefits <;>
    by_cases h2 : b.benefit_id = benefitId <;>
      simp [mem_jsSetAdd, h1, h2]

lemma length_filter_split {α : Type} (p : α → Bool) (l : List α) :
    (l.filter p).length + (l.filter fun a => !(p a)).length = l.length := by
  induction l with
  | nil => rfl
  | cons a t ih =>
    by_cases ha : p a = true
    · simp [List.filter_cons, ha]
      omega
    · have ha2 : p a = false := by
        cases h : p a
        · rfl
        · exact absurd h ha
      simp [List.filter_cons, ha2]
      omega

lemma filter_id_eq_singleton {l : List Benefit} {b : Benefit}
    (hnodup : (l.map fun x => x.benefit_id).Nodup) (hb : b ∈ l) :
    (l.filter fun x => x.benefit_id = b.benefit_id).length = 1 := by
  induction l with
  | nil => cases hb
  | cons a t ih =>
    rw [List.map_cons, List.nodup_cons] at hnodup
    by_cases ha : a.benefit_id = b.benefit_id
    · have htnone : (t.filter fun x => x.benefit_id = b.benefit_id) = [] := by
        rw [List.filter_eq_nil_iff]
        intro x hx
        simp only [decide_eq_true_eq]
        intro hxb
        exact hnodup.1 (ha ▸ hxb ▸ List.mem_map_of_mem (fun y => y.benefit_id) hx)
      simp [List.filter_cons, ha, htnone]
    · have hbt : b ∈ t := by
        rcases List.mem_cons.1 hb with rfl | hbt
        · exact absurd rfl ha
        · exact hbt
      simp [List.filter_cons, ha, ih hnodup.2 hbt]

/-- **C7.** Benefit deletion is local: deleting one displayed benefit (a) never
mutates the underlying `all_benefits` array, (b) makes the visible list exactly
the previous visible list with that one benefit filtered out — every other
visible benefit is the very same unchanged record and no recomputation of the
remaining set happens, (c) shrinks the visible list by exactly one, and
(d) decreases the displayed remaining-benefit badge by exactly one. -/
theorem benefit_deletion_local (st : ResultsViewState) (b : Benefit)
    (hnodup : (st.all_benefits.map fun x => x.benefit_id).Nodup)
    (hvis : b ∈ visibleBenefits st) :
    (markBenefitDeleted st b.benefit_id).all_benefits = st.all_benefits ∧
    visibleBenefits (markBenefitDeleted st b.benefit_id)
      = ((visibleBenefits st).filter fun x => x.benefit_id ≠ b.benefit_id) ∧
    (∀ x ∈ visibleBenefits (markBenefitDeleted st b.benefit_id),
      x ∈ visibleBenefits st) ∧
    (visibleBenefits (markBenefitDeleted st b.benefit_id)).length
      = (visibleBenefits st).length - 1 ∧
    benefitsBadge (markBenefitDeleted st b.benefit_id) = benefitsBadge st - 1 := by
  have hveq := visibleBenefits_markDeleted st b.benefit_id
  have hnodupVis : ((visibleBenefits st).map fun x => x.benefit_id).Nodup := by
    unfold visibleBenefits
    exact List.Nodup.sublist (List.Sublist.map _ (List.filter_sublist _)) hnodup
  refine ⟨rfl, hveq, ?_, ?_, ?_⟩
  · intro x hx
    rw [hveq] at hx
    exact (List.mem_filter.1 hx).1
  · rw [hveq]
    have hsplit := length_filter_split
      (fun x => decide (x.benefit_id = b.benefit_id)) (visibleBenefits st)
    have hone := filter_id_eq_singleton hnodupVis hvis
    have : ((visibleBenefits st).filter
        fun x => !(decide (x.benefit_id = b.benefit_id))).length
        = (visibleBenefits st).length - 1 := by
      omega
    
    have hsame : ((visibleBenefits st).filter fun x => x.benefit_id ≠ b.benefit_id)
        = (visibleBenefits st).filter
            fun x => !(decide (x.benefit_id = b.benefit_id)) := by
      apply List.filter_congr
      intro x _
      simp
    rw [hsame]
    exact this
  · unfold benefitsBadge markBenefitDeleted jsSetAdd
    have hnotmem : b.benefit_id ∉ st.deletedBenefits := by
      have := (List.mem_filter.1 hvis).2
      simpa using this
    rw [if_neg hnotmem]
    simp only [List.length_append, List.length_singleton]
    omega

/-- A concrete two-benefit result set with nothing deleted yet. -/
def sampleResultsState : ResultsViewState :=
  { all_benefits :=
      [{ benefit_id := ("b-1")
         title := ("Airport lounge access")
         description := ("Complimentary lounge access")
         confidence_level := ("high")
         extraction_method := ("pattern")
         value := none },
       { benefit_id := ("b-2")
         title := ("5% cashback")
         description := ("Cashback on dining")
         confidence_level := ("medium")
         extraction_method := ("llm")
         value := some ("5%") }]
    deletedBenefits := [] }

/-- The first benefit of `sampleResultsState`. -/
def sampleBenefit : Benefit :=
  { benefit_id := ("b-1")
    title := ("Airport lounge access")
    description := ("Complimentary lounge access")
    confidence_level := ("high")
    extraction_method := ("pattern")
    value := none }

/-- Witness for `benefit_deletion_local` on a concrete two-benefit view:
deleting the first benefit leaves the underlying array alone and drops the
visible count and the badge from 2 to 1. -/
theorem benefit_deletion_local_witness :
    (markBenefitDeleted sampleResultsState sampleBenefit.benefit_id).all_benefits
        = sampleResultsState.all_benefits ∧
    (visibleBenefits (markBenefitDeleted sampleResultsState sampleBenefit.benefit_id)).length
        = (visibleBenefits sampleResultsState).length - 1 ∧
    benefitsBadge (markBenefitDeleted sampleResultsState sampleBenefit.benefit_id)
        = benefitsBadge sampleResultsState - 1 :=
  ⟨(benefit_deletion_local sampleResultsState sampleBenefit (by decide) (by decide)).1,
   (benefit_deletion_local sampleResultsState sampleBenefit (by decide)
      (by decide)).2.2.2.1,
   (benefit_deletion_local sampleResultsState sampleBenefit (by decide)
      (by decide)).2.2.2.2⟩

end DataExtraction
